import Mathlib

/-!
Verification of the INVASE importance-estimation engine: a shallow embedding of
src/invase/method.py over rational arithmetic. Randomness of the source
(np.random.choice draws, torch dropout masks, argsort shuffles) is passed as
explicit oracle parameters, and the external estimator and external library
calls (sklearn resample, torch log/sigmoid) are function parameters, so every
definition below is translated from a concrete construct of method.py.
-/

namespace Invase

/-- Matrix of rationals, row major: models a 2-D numpy array or torch tensor. -/
abbrev Mat := List (List ℚ)

/-- Numeric floor EPS = 1e-8 from method.py. -/
def EPS : ℚ := 1 / 100000000

/-- Elementwise combination of three lists; models vectorized three-argument
tensor operations. -/
def zipWith3 {α β γ δ : Type} (g : α → β → γ → δ) :
    List α → List β → List γ → List δ
  | a :: as, b :: bs, c :: cs => g a b c :: zipWith3 g as bs cs
  | _, _, _ => []

/-- Minimum of a list of rationals; models torch.min over the last dimension of
one row (the empty case never occurs in the source and defaults to 0). -/
def rowMin : List ℚ → ℚ
  | [] => 0
  | x :: xs => xs.foldl min x

/-- Maximum of a list of rationals; models torch.max over the last dimension of
one row. -/
def rowMax : List ℚ → ℚ
  | [] => 0
  | x :: xs => xs.foldl max x

/-- Embedding of sample from method.py: return X unchanged when nsamples covers
every row, otherwise delegate to sklearn.utils.resample, an external
collaborator passed in as resampleFn X nsamples randomState. -/
def sample (X : Mat) (nsamples : Nat) (randomState : Nat)
    (resampleFn : Mat → Nat → Nat → Mat) : Mat :=
  if nsamples ≥ X.length then X else resampleFn X nsamples randomState

/-- Embedding of line 472 of method.py, X_sampled = sample(X, nsamples=samples)
in invaseRiskEstimation.__init__ (random_state defaulting to 0). -/
def riskEstimationTrainingData (X : Mat) (samples : Nat)
    (resampleFn : Mat → Nat → Nat → Mat) : Mat :=
  sample X samples 0 resampleFn

/-- Embedding of bitmasks from method.py, lines 38-48: binary masks of length
n, produced by the choose-or-skip recursion for 0 < m < n, the all-zeros mask
for m ≤ 0 and the all-ones mask for m ≥ n. At n = 0 either source branch
yields the empty mask, so that case is merged. Entries are rationals because
the masks flow into tensor arithmetic. -/
def bitmasks : (n : Nat) → (m : Int) → List (List ℚ)
  | 0, _ => [[]]
  | n + 1, m =>
    if m < ((n : Int) + 1) then
      if m > 0 then
        (bitmasks n (m - 1)).map (fun x => 1 :: x) ++
          (bitmasks n m).map (fun x => 0 :: x)
      else
        [List.replicate (n + 1) 0]
    else
      [List.replicate (n + 1) 1]

/-- Models the python range(low, high) over integers. -/
def pyRange (low high : Int) : List Int :=
  (List.range (high - low).toNat).map (fun i => low + i)

/-- Embedding of bitmask_intervals from method.py: concatenate bitmasks(n, k)
for k in range(low, high). -/
def bitmask_intervals (n : Nat) (low high : Int) : List (List ℚ) :=
  ((pyRange low high).map (fun k => bitmasks n k)).flatten

/-- Models the python slice l[start:stop] for nonnegative bounds, clamped. -/
def pySlice {α : Type} (l : List α) (start stop : Nat) : List α :=
  (l.drop start).take (stop - start)

/-- Embedding of the batch selection in invaseBase._train, line 193:
train_indices[(b * batch_size) : min((b + 1) * batch_size, n - 1)]. -/
def batchIndices (trainIndices : List Nat) (batchSize b : Nat) : List Nat :=
  pySlice trainIndices (b * batchSize)
    (min ((b + 1) * batchSize) (trainIndices.length - 1))

/-- Validation-checkpoint state of invaseBase._train: the best validation loss
seen so far and the patience counter. -/
structure ESState where
  best : ℚ
  patience : Nat
deriving DecidableEq

/-- Embedding of the checkpoint update of invaseBase._train, lines 223-227:
on a strict improvement record the new best and reset patience to 0, otherwise
increment patience. -/
def checkpointStep (s : ESState) (valLoss : ℚ) : ESState :=
  if valLoss < s.best then { best := valLoss, patience := 0 }
  else { best := s.best, patience := s.patience + 1 }

/-- Epoch loop of invaseBase._train restricted to its early-stopping logic.
valLossAt is an oracle giving the validation loss measured at each checkpoint
epoch (covering every possible training trajectory). Returns some (e, s) when
the loop breaks early at epoch e with state s, and none when the epoch budget
runs out. -/
def trainLoopAux (nEpochPrint patienceThr minEpochs : Nat) (valLossAt : Nat → ℚ) :
    Nat → Nat → ESState → Option (Nat × ESState)
  | 0, _, _ => none
  | fuel + 1, epoch, s =>
    if epoch % nEpochPrint = 0 then
      let s2 := checkpointStep s (valLossAt epoch)
      if patienceThr < s2.patience ∧ minEpochs < epoch then some (epoch, s2)
      else trainLoopAux nEpochPrint patienceThr minEpochs valLossAt fuel (epoch + 1) s2
    else trainLoopAux nEpochPrint patienceThr minEpochs valLossAt fuel (epoch + 1) s

/-- Embedding of invaseBase._train's epoch loop, lines 188-233: epochs
0..nEpoch-1, patience starting at 0, best_val_loss starting at 99999999. -/
def trainLoop (nEpochPrint patienceThr minEpochs nEpoch : Nat)
    (valLossAt : Nat → ℚ) : Option (Nat × ESState) :=
  trainLoopAux nEpochPrint patienceThr minEpochs valLossAt nEpoch 0
    { best := 99999999, patience := 0 }

/-- Failure modes of Masking.forward: the two input-validation RuntimeErrors,
plus the IndexError hit when an empty batch is indexed at row 0. -/
inductive MaskError where
  | invalidTensorCount
  | invalidShape
  | indexError
deriving DecidableEq

/-- Entrywise core of Masking.forward after validation, lines 79-94: the drawn
replacement d is overwritten by the sentinel -1 where it equals the original
feature value, then the result is f * s + (1 - s) * d. -/
def maskEntry (f s d : ℚ) : ℚ :=
  f * s + (1 - s) * (if f = d then -1 else d)

/-- Vectorized core of Masking.forward on a batch: features, selections and the
matrix of replacement values drawn by np.random.choice (entry (i, j) drawn from
masking_values[j]), all of one shape. -/
def maskingCore (features selections draws : Mat) : Mat :=
  zipWith3 (fun frow srow drow => zipWith3 maskEntry frow srow drow)
    features selections draws

/-- Embedding of Masking.forward, lines 63-94: the input-count check, then the
two row-0 shape checks in source order, then the masking computation. -/
def maskingForward (maskingValues : List (List ℚ)) (draws : Mat)
    (tensors : List Mat) : Except MaskError Mat :=
  match tensors with
  | [features, selections] =>
    match features.head? with
    | none => .error .indexError
    | some frow =>
      if frow.length ≠ maskingValues.length then .error .invalidShape
      else
        match selections.head? with
        | none => .error .indexError
        | some srow =>
          if srow.length ≠ maskingValues.length then .error .invalidShape
          else .ok (maskingCore features selections draws)
  | _ => .error .invalidTensorCount

/-- True exactly when Masking.forward raised one of its two input-validation
RuntimeErrors (not the empty-batch IndexError). -/
def isValidationError : Except MaskError Mat → Bool
  | .error .invalidTensorCount => true
  | .error .invalidShape => true
  | _ => false

/-- Per-instance normalization of invaseClassifier._importance_test_normal,
lines 383-384: subtract the row minimum in place, then divide by the new row
maximum plus EPS. -/
def normalizeRowNormal (row : List ℚ) : List ℚ :=
  let shifted := row.map (fun v => v - rowMin row)
  shifted.map (fun v => v / (rowMax shifted + EPS))

/-- Per-instance normalization of invaseClassifier._importance_test_optimized,
lines 435-436: (importance - min) / (max - min + EPS). -/
def normalizeRowOptimized (row : List ℚ) : List ℚ :=
  row.map (fun v => (v - rowMin row) / (rowMax row - rowMin row + EPS))

/-- Embedding of invaseRiskEstimation._baseline_metric, lines 498-511: the
estimator's predict call and torch.log are external and passed as parameters;
out = (p - y)^2 + |p - y| - y * log(p + EPS), elementwise over instances and
evaluation horizons. -/
def riskBaselineMetric (logFn : ℚ → ℚ) (predictFn : Mat → Mat)
    (x y : Mat) : Mat :=
  let p := predictFn x
  List.zipWith (fun prow yrow =>
    List.zipWith
      (fun pv yv => (pv - yv) ^ 2 + |pv - yv| + -(yv * logFn (pv + EPS)))
      prow yrow) p y

/-- Leave-one-out accumulator update of invaseRiskEstimation._importance_test,
lines 541-544: for instance i, feature j, horizon h, take the maximum of the
accumulator entry and (1 - mask[i][j]) * loss[i][h]. -/
def riskBaselineUpdate (imp : List (List (List ℚ))) (mask loss : Mat) :
    List (List (List ℚ)) :=
  zipWith3 (fun impRow mrow lrow =>
    List.zipWith (fun impVec mv =>
      List.zipWith (fun cur lv => max cur ((1 - mv) * lv)) impVec lrow)
      impRow mrow)
    imp mask loss

/-- Interaction accumulator update of invaseRiskEstimation._importance_test,
lines 565-568: add 1e-3 * (1 - mask[i][j]) * loss[i][h]. -/
def riskInteractionUpdate (imp : List (List (List ℚ))) (mask loss : Mat) :
    List (List (List ℚ)) :=
  zipWith3 (fun impRow mrow lrow =>
    List.zipWith (fun impVec mv =>
      List.zipWith (fun cur lv => cur + 1 / 1000 * ((1 - mv) * lv)) impVec lrow)
      impRow mrow)
    imp mask loss

/-- Greedy full windows of size B: models the itertools.islice consumption loop
of _importance_test (take a slice of len(x) masks, process while the slice is
full, stop at the first undersized slice). A batch size of 0 would loop forever
in the source and is mapped to no windows. -/
def fullChunksAux {α : Type} (B : Nat) : Nat → List α → List (List α)
  | 0, _ => []
  | fuel + 1, l =>
    if B = 0 ∨ l.length < B then []
    else (l.take B) :: fullChunksAux B fuel (l.drop B)

/-- Entry point of the window consumption: l.length steps of fuel always
suffice because each kept window removes B > 0 elements. -/
def fullChunks {α : Type} (B : Nat) (l : List α) : List (List α) :=
  fullChunksAux B l.length l

/-- Models mask = next_mask[arange(B).unsqueeze(-1), indices], lines 556-559:
row i of the output is row i of m re-indexed by row i of the permutation matrix
that argsort of uniform noise produced. -/
def permuteRows (m : Mat) (perm : List (List Nat)) : Mat :=
  List.zipWith (fun row prow => prow.map (fun k => row.getD k 0)) m perm

/-- Embedding of invaseRiskEstimation._importance_test, lines 527-576. H is
len(eval_times); metric composes the external estimator with _baseline_metric
at the fixed labels y; draws1 and draws2 are the np.random.choice draws made
inside the two groups of masking calls and perms the argsort permutations, so
all randomness of the source is an explicit oracle. The final normalization is
commented out in the source (lines 572-574) and hence absent here: the raw
accumulated importances are returned. -/
def riskImportanceTest (epochsInner H : Nat) (metric : Mat → Mat)
    (draws1 : Nat → Mat) (draws2 : Nat → Nat → Mat)
    (perms : Nat → Nat → List (List Nat)) (x : Mat) : List (List (List ℚ)) :=
  let B := x.length
  let F := x.headI.length
  let init : List (List (List ℚ)) :=
    List.replicate B (List.replicate F (List.replicate H (0 : ℚ)))
  let afterBaseline :=
    ((bitmask_intervals F ((F : Int) - 1) (F : Int)).enum).foldl
      (fun imp tm =>
        let maskB := List.replicate B tm.2
        riskBaselineUpdate imp maskB (metric (maskingCore x maskB (draws1 tm.1))))
      init
  let chunks := fullChunks B (bitmask_intervals F ((F : Int) - 2) ((F : Int) - 1))
  (chunks.enum).foldl
    (fun imp uc =>
      (List.range epochsInner).foldl
        (fun impInner t =>
          let mask := permuteRows uc.2 (perms uc.1 t)
          riskInteractionUpdate impInner mask
            (metric (maskingCore x mask (draws2 uc.1 t))))
        imp)
    afterBaseline

/-- Dot product of two rational vectors. -/
def dotQ (a b : List ℚ) : ℚ := (List.zipWith (fun u v => u * v) a b).sum

/-- A torch.nn.Linear layer: each weight row against the input, plus bias. -/
def linearLayer (W : Mat) (b x : List ℚ) : List ℚ :=
  List.zipWith (fun wrow bv => dotQ wrow x + bv) W b

/-- torch.nn.ReLU, elementwise. -/
def reluVec (x : List ℚ) : List ℚ := x.map (fun v => max v 0)

/-- torch.nn.Dropout(p) in training mode (the source never switches the critic
to eval mode): each kept unit is scaled by 1 / (1 - p), each dropped unit is
zeroed; the Bernoulli draw is the explicit 0/1 mask argument. -/
def dropoutTrain (p : ℚ) (mask x : List ℚ) : List ℚ :=
  List.zipWith (fun mv xv => xv * mv / (1 - p)) mask x

/-- Parameters of the four Linear layers built by
invaseClassifier._build_critic, lines 287-300. -/
structure CriticParams where
  W1 : Mat
  b1 : List ℚ
  W2 : Mat
  b2 : List ℚ
  W3 : Mat
  b3 : List ℚ
  W4 : Mat
  b4 : List ℚ

/-- Bernoulli draws of the three Dropout(0.1) layers consumed by one forward
pass on one instance. -/
structure DropoutDraw where
  m1 : List ℚ
  m2 : List ℚ
  m3 : List ℚ

/-- Forward pass of the classifier critic on one instance, in training mode
(the Dropout layers are active because the source never calls eval): Linear,
ReLU, Dropout(0.1) three times, then Linear and the final torch sigmoid, kept
abstract as a scalar map parameter. -/
def criticForward (sigmoid : ℚ → ℚ) (P : CriticParams) (r : DropoutDraw)
    (x : List ℚ) : List ℚ :=
  let h1 := dropoutTrain (1 / 10) r.m1 (reluVec (linearLayer P.W1 P.b1 x))
  let h2 := dropoutTrain (1 / 10) r.m2 (reluVec (linearLayer P.W2 P.b2 h1))
  let h3 := dropoutTrain (1 / 10) r.m3 (reluVec (linearLayer P.W3 P.b3 h2))
  (linearLayer P.W4 P.b4 h3).map sigmoid

/-- Embedding of invaseClassifier.explain, lines 278-285: a forward pass of the
critic on each row of X, detach/cpu/numpy being the identity on values. The
Dropout draws consumed by the pass are the explicit rs argument, one per row. -/
def classifierExplain (sigmoid : ℚ → ℚ) (P : CriticParams)
    (rs : List DropoutDraw) (X : Mat) : Mat :=
  List.zipWith (fun r row => criticForward sigmoid P r row) rs X

/-- Elementwise sum of two matrices of one shape. -/
def matAdd (a b : Mat) : Mat := List.zipWith (List.zipWith (fun u v => u + v)) a b

/-- Models np.mean(result, axis=0) on a list of same-shape matrices: sum along
the stacking axis, divide by the count. -/
def npMeanAxis0 (ms : List Mat) : Mat :=
  match ms with
  | [] => []
  | m :: rest =>
    (rest.foldl matAdd m).map (fun row =>
      row.map (fun v => v / ((rest.length + 1 : Nat) : ℚ)))

/-- Embedding of invaseCV.explain, lines 620-626: collect each fold model's
explain output and average them with np.mean along axis 0. A fold model is
represented by its explain map (the critic forward pass with the dropout draws
of that call folded in). -/
def invaseCVExplain (folds : List (Mat → Mat)) (x : Mat) : Mat :=
  npMeanAxis0 (folds.map (fun fold => fold x))

/-- Entry (i, j) of a matrix, defaulting out of range. -/
def matEntry (m : Mat) (i j : Nat) : ℚ := (m.getD i []).getD j 0

/-- Shape predicate: B rows, every row of length F. -/
def HasShape (m : Mat) (B F : Nat) : Prop :=
  m.length = B ∧ ∀ r ∈ m, r.length = F

/-- One-zero leave-one-out mask of length F with the zero at position j. -/
def looMask (F j : Nat) : List ℚ :=
  (List.range F).map (fun t => if t = j then 0 else 1)

section Helpers

lemma foldl_min_le_init (xs : List ℚ) (a : ℚ) : xs.foldl min a ≤ a := by
  induction xs generalizing a with
  | nil => simp
  | cons x xs ih => exact le_trans (ih (min a x)) (min_le_left a x)

lemma foldl_min_le_mem (xs : List ℚ) (a v : ℚ) (hv : v ∈ xs) :
    xs.foldl min a ≤ v := by
  induction xs generalizing a with
  | nil => simp at hv
  | cons x xs ih =>
    rcases List.mem_cons.mp hv with rfl | hv2
    · exact le_trans (foldl_min_le_init xs (min a v)) (min_le_right a v)
    · exact ih (min a x) hv2

lemma foldl_min_cases (xs : List ℚ) (a : ℚ) :
    xs.foldl min a = a ∨ xs.foldl min a ∈ xs := by
  induction xs generalizing a with
  | nil => exact Or.inl rfl
  | cons x xs ih =>
    rcases ih (min a x) with h | h
    · rcases min_choice a x with hm | hm
      · exact Or.inl (by rw [List.foldl_cons, h, hm])
      · refine Or.inr ?_
        rw [List.foldl_cons, h, hm]
        exact List.mem_cons_self x xs
    · exact Or.inr (List.mem_cons_of_mem x h)

lemma foldl_max_ge_init (xs : List ℚ) (a : ℚ) : a ≤ xs.foldl max a := by
  induction xs generalizing a with
  | nil => simp
  | cons x xs ih => exact le_trans (le_max_left a x) (ih (max a x))

lemma foldl_max_ge_mem (xs : List ℚ) (a v : ℚ) (hv : v ∈ xs) :
    v ≤ xs.foldl max a := by
  induction xs generalizing a with
  | nil => simp at hv
  | cons x xs ih =>
    rcases List.mem_cons.mp hv with rfl | hv2
    · exact le_trans (le_max_right a v) (foldl_max_ge_init xs (max a v))
    · exact ih (max a x) hv2

lemma foldl_max_cases (xs : List ℚ) (a : ℚ) :
    xs.foldl max a = a ∨ xs.foldl max a ∈ xs := by
  induction xs generalizing a with
  | nil => exact Or.inl rfl
  | cons x xs ih =>
    rcases ih (max a x) with h | h
    · rcases max_choice a x with hm | hm
      · exact Or.inl (by rw [List.foldl_cons, h, hm])
      · refine Or.inr ?_
        rw [List.foldl_cons, h, hm]
        exact List.mem_cons_self x xs
    · exact Or.inr (List.mem_cons_of_mem x h)

lemma rowMin_le_mem (l : List ℚ) (v : ℚ) (hv : v ∈ l) : rowMin l ≤ v := by
  cases l with
  | nil => simp at hv
  | cons x xs =>
    rcases List.mem_cons.mp hv with rfl | hv2
    · exact foldl_min_le_init xs v
    · exact foldl_min_le_mem xs x v hv2

lemma rowMin_mem (l : List ℚ) (h : l ≠ []) : rowMin l ∈ l := by
  cases l with
  | nil => exact absurd rfl h
  | cons x xs =>
    simp only [rowMin]
    rcases foldl_min_cases xs x with h2 | h2
    · rw [h2]; exact List.mem_cons_self x xs
    · exact List.mem_cons_of_mem x h2

lemma le_rowMax_mem (l : List ℚ) (v : ℚ) (hv : v ∈ l) : v ≤ rowMax l := by
  cases l with
  | nil => simp at hv
  | cons x xs =>
    rcases List.mem_cons.mp hv with rfl | hv2
    · exact foldl_max_ge_init xs v
    · exact foldl_max_ge_mem xs x v hv2

lemma rowMax_mem (l : List ℚ) (h : l ≠ []) : rowMax l ∈ l := by
  cases l with
  | nil => exact absurd rfl h
  | cons x xs =>
    simp only [rowMax]
    rcases foldl_max_cases xs x with h2 | h2
    · rw [h2]; exact List.mem_cons_self x xs
    · exact List.mem_cons_of_mem x h2

lemma foldl_min_map (f : ℚ → ℚ) (hf : Monotone f) (xs : List ℚ) (a : ℚ) :
    (xs.map f).foldl min (f a) = f (xs.foldl min a) := by
  induction xs generalizing a with
  | nil => simp
  | cons x xs ih => simp [List.foldl_cons, ← hf.map_min, ih]

lemma foldl_max_map (f : ℚ → ℚ) (hf : Monotone f) (xs : List ℚ) (a : ℚ) :
    (xs.map f).foldl max (f a) = f (xs.foldl max a) := by
  induction xs generalizing a with
  | nil => simp
  | cons x xs ih => simp [List.foldl_cons, ← hf.map_max, ih]

lemma rowMin_map (f : ℚ → ℚ) (hf : Monotone f) (l : List ℚ) (h : l ≠ []) :
    rowMin (l.map f) = f (rowMin l) := by
  cases l with
  | nil => exact absurd rfl h
  | cons x xs => simpa [rowMin] using foldl_min_map f hf xs x

lemma rowMax_map (f : ℚ → ℚ) (hf : Monotone f) (l : List ℚ) (h : l ≠ []) :
    rowMax (l.map f) = f (rowMax l) := by
  cases l with
  | nil => exact absurd rfl h
  | cons x xs => simpa [rowMax] using foldl_max_map f hf xs x

lemma rowMin_le_rowMax (l : List ℚ) (h : l ≠ []) : rowMin l ≤ rowMax l :=
  rowMin_le_mem l (rowMax l) (rowMax_mem l h)

lemma map_getD {α β : Type} (f : α → β) (l : List α) (i : Nat) (da : α) (db : β)
    (h : i < l.length) : (l.map f).getD i db = f (l.getD i da) := by
  induction l generalizing i with
  | nil => simp at h
  | cons x xs ih =>
    cases i with
    | zero => simp
    | succ n => simpa using ih n (by simpa using h)

lemma zipWith_getD {α β γ : Type} (g : α → β → γ) (as : List α) (bs : List β)
    (i : Nat) (da : α) (db : β) (dc : γ)
    (ha : i < as.length) (hb : i < bs.length) :
    (List.zipWith g as bs).getD i dc = g (as.getD i da) (bs.getD i db) := by
  induction as generalizing bs i with
  | nil => simp at ha
  | cons a as ih =>
    cases bs with
    | nil => simp at hb
    | cons b bs =>
      cases i with
      | zero => simp
      | succ n =>
        simpa using ih bs n (by simpa using ha) (by simpa using hb)

lemma zipWith3_getD {α β γ δ : Type} (g : α → β → γ → δ)
    (as : List α) (bs : List β) (cs : List γ) (i : Nat)
    (da : α) (db : β) (dc : γ) (dd : δ)
    (ha : i < as.length) (hb : i < bs.length) (hc : i < cs.length) :
    (zipWith3 g as bs cs).getD i dd =
      g (as.getD i da) (bs.getD i db) (cs.getD i dc) := by
  induction as generalizing bs cs i with
  | nil => simp at ha
  | cons a as ih =>
    cases bs with
    | nil => simp at hb
    | cons b bs =>
      cases cs with
      | nil => simp at hc
      | cons c cs =>
        cases i with
        | zero => simp [zipWith3]
        | succ n =>
          simp only [zipWith3, List.getD_cons_succ]
          exact ih bs cs n (by simpa using ha) (by simpa using hb)
            (by simpa using hc)

lemma bitmasks_zero (n : Nat) : bitmasks n 0 = [List.replicate n 0] := by
  cases n with
  | zero => simp [bitmasks]
  | succ k =>
    have h1 : (0 : Int) < (k : Int) + 1 := by positivity
    simp [bitmasks, h1]

lemma bitmasks_full (n : Nat) : bitmasks n (n : Int) = [List.replicate n 1] := by
  cases n with
  | zero => simp [bitmasks]
  | succ k => simp [bitmasks]

lemma looMask_zero (F : Nat) : looMask (F + 1) 0 = 0 :: List.replicate F 1 := by
  have hf : ((fun t => if t = 0 then (0 : ℚ) else 1) ∘ Nat.succ) =
      fun _ => (1 : ℚ) := by
    funext t
    simp
  simp [looMask, List.range_succ_eq_map, List.map_map, hf, List.map_const']

lemma looMask_succ (F j : Nat) : looMask (F + 1) (j + 1) = 1 :: looMask F j := by
  simp [looMask, List.range_succ_eq_map, List.map_map, Function.comp,
    add_left_inj]

lemma bitmasks_loo (n : Nat) (hn : 1 ≤ n) :
    bitmasks n ((n : Int) - 1) =
      (List.range n).map (fun i => looMask n (n - 1 - i)) := by
  induction n with
  | zero => omega
  | succ k ih =>
    cases Nat.eq_or_lt_of_le hn with
    | inl h1 =>
      have hk : k = 0 := by omega
      subst hk
      simp [bitmasks, looMask, List.range_succ]
    | inr h2 =>
      have hk : 1 ≤ k := by omega
      have hlt : ((k : Int) + 1) - 1 < (k : Int) + 1 := by omega
      have hpos : ((k : Int) + 1) - 1 > 0 := by
        have : (1 : Int) ≤ (k : Int) := by exact_mod_cast hk
        omega
      have hcast : ((k + 1 : Nat) : Int) - 1 = ((k : Int) + 1) - 1 := by
        push_cast
        ring
      rw [show (((k + 1 : Nat) : Int) - 1) = ((k : Int) + 1) - 1 from hcast]
      rw [bitmasks]
      rw [if_pos hlt, if_pos hpos]
      have hm1 : (k : Int) + 1 - 1 - 1 = (k : Int) - 1 := by ring
      have hm2 : (k : Int) + 1 - 1 = (k : Int) := by ring
      rw [hm1, hm2, ih hk, bitmasks_full]
      rw [List.range_succ, List.map_append, List.map_map]
      congr 1
      · refine List.map_congr_left ?_
        intro i hi
        have hik : i < k := List.mem_range.mp hi
        have hsub : k - i = (k - 1 - i) + 1 := by omega
        have hsub2 : k + 1 - 1 - i = k - i := by omega
        rw [Function.comp_apply, hsub2, hsub, looMask_succ]
      · have hsub3 : k + 1 - 1 - k = 0 := by omega
        simp [hsub3, looMask_zero]

lemma pyRange_singleton (a : Int) : pyRange a (a + 1) = [a] := by
  simp [pyRange, List.range_succ]

lemma bitmask_intervals_single (n : Nat) (a : Int) :
    bitmask_intervals n a (a + 1) = bitmasks n a := by
  simp [bitmask_intervals, pyRange_singleton]

lemma bitmask_intervals_single' (n : Nat) (a b : Int) (h : b = a + 1) :
    bitmask_intervals n a b = bitmasks n a := by
  rw [h, bitmask_intervals_single]

lemma looMask_length (F j : Nat) : (looMask F j).length = F := by
  simp [looMask]

lemma looMask_count_zero : ∀ F j : Nat, j < F → (looMask F j).count 0 = 1 := by
  intro F
  induction F with
  | zero => intro j hj; omega
  | succ k ih =>
    intro j hj
    cases j with
    | zero =>
      rw [looMask_zero]
      simp [List.count_cons, List.count_replicate]
    | succ m =>
      rw [looMask_succ]
      have h1 : ((1 : ℚ) == 0) = false := by simp
      simp [List.count_cons, h1, ih m (by omega)]

lemma looMask_entries (F j : Nat) : ∀ v ∈ looMask F j, v = 0 ∨ v = 1 := by
  intro v hv
  rw [looMask] at hv
  obtain ⟨t, _, rfl⟩ := List.mem_map.mp hv
  rcases eq_or_ne t j with h | h
  · simp [h]
  · simp [h]

lemma looMask_findIdx : ∀ F j : Nat, j < F →
    (looMask F j).findIdx (fun v => v == 0) = j := by
  intro F
  induction F with
  | zero => intro j hj; omega
  | succ k ih =>
    intro j hj
    cases j with
    | zero =>
      rw [looMask_zero]
      simp [List.findIdx_cons]
    | succ m =>
      rw [looMask_succ]
      have h1 : ((1 : ℚ) == 0) = false := by simp
      simp [List.findIdx_cons, h1, ih m (by omega)]

lemma revRange_perm (F : Nat) :
    ((List.range F).map (fun i => F - 1 - i)).Perm (List.range F) := by
  have h1 : ((List.range F).map (fun i => F - 1 - i)).Nodup := by
    refine List.Nodup.map_on ?_ (List.nodup_range F)
    intro x hx y hy hxy
    have hx2 : x < F := List.mem_range.mp hx
    have hy2 : y < F := List.mem_range.mp hy
    omega
  refine (List.perm_ext_iff_of_nodup h1 (List.nodup_range F)).mpr ?_
  intro a
  constructor
  · intro ha
    obtain ⟨i, hi, rfl⟩ := List.mem_map.mp ha
    have hi2 : i < F := List.mem_range.mp hi
    exact List.mem_range.mpr (by omega)
  · intro ha
    have ha2 : a < F := List.mem_range.mp ha
    refine List.mem_map.mpr ⟨F - 1 - a, List.mem_range.mpr (by omega), by omega⟩

end Helpers

/-- C3 counterexample: for n = 3 the enumerator invoked with cardinality
k = 0 (bitmask_intervals(3, 0, 1)) yields the all-zeros mask and not the
all-ones mask the claim asserts. -/
theorem bitmasks_k0_counterexample :
    bitmask_intervals 3 0 1 = [[0, 0, 0]] ∧
    bitmask_intervals 3 0 1 ≠ [[1, 1, 1]] := by
  have h : bitmask_intervals 3 0 1 = [[0, 0, 0]] := by
    rw [bitmask_intervals_single' 3 0 1 (by norm_num), bitmasks_zero]
    norm_num [List.replicate]
  refine ⟨h, ?_⟩
  rw [h]
  simp

/-- C3 amended: for every mask length n, bitmask_intervals(n, 0, 1)
(equivalently bitmasks(n, 0)) yields exactly one mask, and that mask is the
all-zeros mask (hide everything), not the all-ones mask. -/
theorem bitmasks_k0_singleton (n : Nat) :
    bitmask_intervals n 0 1 = [List.replicate n 0] ∧
    bitmasks n 0 = [List.replicate n 0] := by
  refine ⟨?_, bitmasks_zero n⟩
  rw [bitmask_intervals_single' n 0 1 (by norm_num), bitmasks_zero]

/-- C6: for every feature count F ≥ 1, the enumerator with minOnes = F - 1 and
maxOnesExclusive = F yields exactly F masks, each of length F with exactly one
zero bit (all other entries 1), and the zero-bit positions cover every feature
position exactly once. -/
theorem loo_enumeration (F : Nat) (hF : 1 ≤ F) :
    (bitmask_intervals F ((F : Int) - 1) (F : Int)).length = F ∧
    (∀ m ∈ bitmask_intervals F ((F : Int) - 1) (F : Int),
      m.length = F ∧ m.count 0 = 1 ∧ ∀ v ∈ m, v = 0 ∨ v = 1) ∧
    ((bitmask_intervals F ((F : Int) - 1) (F : Int)).map
        (fun m => m.findIdx (fun v => v == 0))).Perm (List.range F) := by
  have hiv : bitmask_intervals F ((F : Int) - 1) (F : Int) =
      bitmasks F ((F : Int) - 1) :=
    bitmask_intervals_single' F ((F : Int) - 1) (F : Int) (by ring)
  rw [hiv, bitmasks_loo F hF]
  refine ⟨by simp, ?_, ?_⟩
  · intro m hm
    obtain ⟨i, hi, rfl⟩ := List.mem_map.mp hm
    have hi2 : i < F := List.mem_range.mp hi
    exact ⟨looMask_length F (F - 1 - i),
      looMask_count_zero F (F - 1 - i) (by omega),
      looMask_entries F (F - 1 - i)⟩
  · rw [List.map_map]
    have hmap : (List.range F).map
        ((fun m => m.findIdx (fun v => v == 0)) ∘ fun i => looMask F (F - 1 - i)) =
        (List.range F).map (fun i => F - 1 - i) := by
      refine List.map_congr_left ?_
      intro i hi
      have hi2 : i < F := List.mem_range.mp hi
      exact looMask_findIdx F (F - 1 - i) (by omega)
    rw [hmap]
    exact revRange_perm F

/-- C6 witness: the leave-one-out enumeration properties instantiated at
F = 3. -/
theorem loo_enumeration_witness :
    1 ≤ 3 ∧
    ((bitmask_intervals 3 ((3 : Int) - 1) (3 : Int)).length = 3 ∧
    (∀ m ∈ bitmask_intervals 3 ((3 : Int) - 1) (3 : Int),
      m.length = 3 ∧ m.count 0 = 1 ∧ ∀ v ∈ m, v = 0 ∨ v = 1) ∧
    ((bitmask_intervals 3 ((3 : Int) - 1) (3 : Int)).map
        (fun m => m.findIdx (fun v => v == 0))).Perm (List.range 3)) :=
  ⟨by norm_num, loo_enumeration 3 (by norm_num)⟩

/-- C10: sample returns X itself unchanged whenever nsamples is at least the
row count; only when nsamples is strictly smaller does it delegate to the
external sklearn resample, which then yields exactly nsamples rows whenever
resample honours its row-count contract; in particular the risk-estimation
variant trains on the full unmodified dataset whenever its samples
configuration is at least the dataset size. -/
theorem sample_full_dataset :
    (∀ (X : Mat) (ns rs : Nat) (rf : Mat → Nat → Nat → Mat),
      X.length ≤ ns → sample X ns rs rf = X) ∧
    (∀ (X : Mat) (ns rs : Nat) (rf : Mat → Nat → Nat → Mat),
      ns < X.length → sample X ns rs rf = rf X ns rs) ∧
    (∀ (X : Mat) (ns rs : Nat) (rf : Mat → Nat → Nat → Mat),
      (∀ A k r, (rf A k r).length = k) → ns < X.length →
      (sample X ns rs rf).length = ns) ∧
    (∀ (X : Mat) (samples : Nat) (rf : Mat → Nat → Nat → Mat),
      X.length ≤ samples → riskEstimationTrainingData X samples rf = X) := by
  refine ⟨?_, ?_, ?_, ?_⟩
  · intro X ns rs rf h
    rw [sample, if_pos (by omega)]
  · intro X ns rs rf h
    rw [sample, if_neg (by omega)]
  · intro X ns rs rf hrf h
    rw [sample, if_neg (by omega)]
    exact hrf X ns rs
  · intro X samples rf h
    rw [riskEstimationTrainingData, sample, if_pos (by omega)]

/-- C10 witness: the sample behaviours instantiated on a two-row dataset with
a concrete stand-in for resample. -/
theorem sample_full_dataset_witness :
    sample [[1], [2]] 5 0 (fun _ k _ => List.replicate k [(0 : ℚ)]) = [[1], [2]] ∧
    sample [[1], [2]] 1 0 (fun _ k _ => List.replicate k [(0 : ℚ)]) =
      List.replicate 1 [(0 : ℚ)] ∧
    (sample [[1], [2]] 1 0 (fun _ k _ => List.replicate k [(0 : ℚ)])).length = 1 ∧
    riskEstimationTrainingData [[1], [2]] 2
      (fun _ k _ => List.replicate k [(0 : ℚ)]) = [[1], [2]] :=
  ⟨sample_full_dataset.1 [[1], [2]] 5 0 _ (by norm_num),
   sample_full_dataset.2.1 [[1], [2]] 1 0 _ (by norm_num),
   sample_full_dataset.2.2.1 [[1], [2]] 1 0 _ (fun A k r => by simp) (by norm_num),
   sample_full_dataset.2.2.2 [[1], [2]] 2 _ (by norm_num)⟩

lemma trainLoopAux_stop (nPrint patThr minE : Nat) (val : Nat → ℚ) :
    ∀ (fuel e0 : Nat) (s0 : ESState) (e : Nat) (s : ESState),
      trainLoopAux nPrint patThr minE val fuel e0 s0 = some (e, s) →
      e % nPrint = 0 ∧ patThr < s.patience ∧ minE < e := by
  intro fuel
  induction fuel with
  | zero =>
    intro e0 s0 e s h
    simp [trainLoopAux] at h
  | succ f ih =>
    intro e0 s0 e s h
    simp only [trainLoopAux] at h
    by_cases hmod : e0 % nPrint = 0
    · rw [if_pos hmod] at h
      by_cases hcond :
          patThr < (checkpointStep s0 (val e0)).patience ∧ minE < e0
      · rw [if_pos hcond] at h
        simp only [Option.some.injEq, Prod.mk.injEq] at h
        obtain ⟨rfl, rfl⟩ := h
        exact ⟨hmod, hcond.1, hcond.2⟩
      · rw [if_neg hcond] at h
        exact ih _ _ _ _ h
    · rw [if_neg hmod] at h
      exact ih _ _ _ _ h

/-- C7: the training loop stops early only at a validation checkpoint (the
epoch is divisible by n_epoch_print) where, after the patience update, the
patience counter strictly exceeds the configured threshold AND the epoch
strictly exceeds min_epochs; and the checkpoint update resets patience to 0
exactly when the validation loss strictly improves on the best seen so far,
incrementing it otherwise. -/
theorem early_stopping_conditions :
    (∀ (nPrint patThr minE nEpoch : Nat) (val : Nat → ℚ) (e : Nat) (s : ESState),
      trainLoop nPrint patThr minE nEpoch val = some (e, s) →
        e % nPrint = 0 ∧ patThr < s.patience ∧ minE < e) ∧
    (∀ (s : ESState) (v : ℚ),
      ((checkpointStep s v).patience = 0 ↔ v < s.best) ∧
      (¬ v < s.best → (checkpointStep s v).patience = s.patience + 1)) := by
  constructor
  · intro nPrint patThr minE nEpoch val e s h
    exact trainLoopAux_stop nPrint patThr minE val nEpoch 0 _ e s h
  · intro s v
    by_cases h : v < s.best
    · simp [checkpointStep, h]
    · simp [checkpointStep, h]

/-- C7 witness: with n_epoch_print = 1, patience threshold 0 and min_epochs 0,
a loss trace that improves at epoch 0 and worsens afterwards stops early at
epoch 1, where the stopping conditions hold. -/
theorem early_stopping_conditions_witness :
    trainLoop 1 0 0 10 (fun e => if e = 0 then 1 else 2) =
      some (1, { best := 1, patience := 1 }) ∧
    (1 % 1 = 0 ∧ 0 < 1 ∧ 0 < 1) :=
  ⟨by decide,
   early_stopping_conditions.1 1 0 0 10 (fun e => if e = 0 then 1 else 2) 1
     { best := 1, patience := 1 } (by decide)⟩

/-- C9: with pairwise-distinct training indices, the element at the last
position of the (shuffled) index array is excluded from every mini-batch,
because the batch slice's exclusive upper bound is capped at n - 1. -/
theorem last_index_excluded (l : List Nat) (bs b : Nat) (hnd : l.Nodup)
    (v : Nat) (hv : l.getLast? = some v) : v ∉ batchIndices l bs b := by
  obtain ⟨l', rfl⟩ := List.getLast?_eq_some_iff.mp hv
  have hdisj : List.Disjoint l' [v] := List.disjoint_of_nodup_append hnd
  intro hmem
  refine hdisj ?_ (List.mem_singleton.mpr rfl)
  have hlen : (l' ++ [v]).length - 1 = l'.length := by simp
  rw [batchIndices, pySlice, hlen] at hmem
  rw [List.take_drop] at hmem
  have h1 : v ∈ (l' ++ [v]).take
      (b * bs + (min ((b + 1) * bs) l'.length - b * bs)) :=
    List.drop_subset _ _ hmem
  have h2 : b * bs + (min ((b + 1) * bs) l'.length - b * bs) ≤ l'.length ∨
      min ((b + 1) * bs) l'.length ≤ b * bs := by omega
  rcases h2 with h2 | h2
  · rw [List.take_append_eq_append_take,
      Nat.sub_eq_zero_of_le h2, List.take_zero, List.append_nil] at h1
    exact List.take_subset _ _ h1
  · rw [Nat.sub_eq_zero_of_le h2] at hmem
    have hnil : ((l' ++ [v]).take (b * bs + 0)).drop (b * bs) = [] := by
      apply List.drop_eq_nil_of_le
      simp only [List.length_take]
      omega
    rw [hnil] at hmem
    simp at hmem

/-- C9 witness: for the shuffled index list [2, 0, 1] with batch size 2 the
element at the last position, 1, is not in the first batch. -/
theorem last_index_excluded_witness :
    ([2, 0, 1] : List Nat).Nodup ∧
    ([2, 0, 1] : List Nat).getLast? = some 1 ∧
    1 ∉ batchIndices [2, 0, 1] 2 0 :=
  ⟨by decide, by decide, last_index_excluded [2, 0, 1] 2 0 (by decide) 1 (by decide)⟩

end Invase

namespace Invase

/-- C8: Masking.forward raises an input-validation error exactly when the
number of input tensors is not 2, or the per-instance lengths of the feature
vector and the selection mask disagree with each other or with the configured
per-feature distribution count; and it raises no such error otherwise. Batches
are assumed nonempty, since an empty batch hits a different (IndexError)
path. -/
theorem masking_validation (mv : List (List ℚ)) (draws : Mat)
    (tensors : List Mat) (hne : ∀ t ∈ tensors, t ≠ []) :
    isValidationError (maskingForward mv draws tensors) = true ↔
      (tensors.length ≠ 2 ∨
       tensors.headI.headI.length ≠ (tensors.getD 1 []).headI.length ∨
       tensors.headI.headI.length ≠ mv.length ∨
       (tensors.getD 1 []).headI.length ≠ mv.length) := by
  match tensors with
  | [] => simp [maskingForward, isValidationError]
  | [a] => simp [maskingForward, isValidationError]
  | a :: c :: d :: rest => simp [maskingForward, isValidationError]
  | [f, s] =>
    have hf := hne f (by simp)
    have hs := hne s (by simp)
    cases f with
    | nil => exact absurd rfl hf
    | cons f0 ftl =>
      cases s with
      | nil => exact absurd rfl hs
      | cons s0 stl =>
        have hmain : isValidationError
            (maskingForward mv draws [f0 :: ftl, s0 :: stl]) = true ↔
            (f0.length ≠ mv.length ∨ s0.length ≠ mv.length) := by
          by_cases h1 : f0.length = mv.length
          · by_cases h2 : s0.length = mv.length
            · rw [maskingForward]
              simp [isValidationError, h1, h2]
            · rw [maskingForward]
              simp [isValidationError, h1, h2]
          · rw [maskingForward]
            simp [isValidationError, h1]
        rw [hmain]
        have hg : ([f0 :: ftl, s0 :: stl] : List Mat).getD 1 [] = s0 :: stl := by
          rfl
        rw [hg]
        simp only [List.headI, List.length_cons, List.length_nil]
        constructor
        · intro h
          omega
        · intro h
          omega

/-- C8 witness: a feature row of length 2 against a selection row of length 1
and two configured distributions triggers the validation error. -/
theorem masking_validation_witness :
    (∀ t ∈ ([[[1, 2]], [[3]]] : List Mat), t ≠ []) ∧
    isValidationError
      (maskingForward [[1], [2]] [[0, 0]] [[[1, 2]], [[3]]]) = true :=
  ⟨by simp,
   (masking_validation [[1], [2]] [[0, 0]] [[[1, 2]], [[3]]] (by simp)).mpr
     (by simp)⟩

/-- C4 counterexample: with observed values [-1, 1] for the single feature, an
original value 1, selection bit 0 and a drawn replacement 1 equal to the
original, Masking.forward places the sentinel -1 at that position, and -1 is
itself one of the observed values of that feature, hence not distinct from
every value observed in the training data. -/
theorem masking_sentinel_counterexample :
    maskingForward [[-1, 1]] [[1]] [[[1]], [[0]]] = .ok [[-1]] ∧
    ((-1 : ℚ) ∈ [(-1 : ℚ), 1]) ∧ ((1 : ℚ) ∈ [(-1 : ℚ), 1]) := by
  refine ⟨?_, by simp, by simp⟩
  norm_num [maskingForward, maskingCore, zipWith3, maskEntry]

/-- C4 amended: in Masking.forward, for a feature position whose selection bit
is 0 and whose drawn replacement equals the original value, the value placed
is the constant sentinel -1; it is distinct from every value observed for that
feature precisely when -1 is not itself among that feature's observed
values. -/
theorem masking_sentinel (features selections draws : Mat) (mvrow : List ℚ)
    (i j : Nat)
    (hif : i < features.length) (his : i < selections.length)
    (hid : i < draws.length)
    (hjf : j < (features.getD i []).length)
    (hjs : j < (selections.getD i []).length)
    (hjd : j < (draws.getD i []).length)
    (hsel : (selections.getD i []).getD j 1 = 0)
    (heq : (features.getD i []).getD j 0 = (draws.getD i []).getD j 0) :
    matEntry (maskingCore features selections draws) i j = -1 ∧
    ((-1 : ℚ) ∉ mvrow →
      ∀ w ∈ mvrow, matEntry (maskingCore features selections draws) i j ≠ w) := by
  have hrow : (maskingCore features selections draws).getD i [] =
      zipWith3 maskEntry (features.getD i []) (selections.getD i [])
        (draws.getD i []) := by
    rw [maskingCore]
    exact zipWith3_getD _ features selections draws i [] [] [] [] hif his hid
  have hent : matEntry (maskingCore features selections draws) i j = -1 := by
    rw [matEntry, hrow,
      zipWith3_getD maskEntry _ _ _ j 0 1 0 0 hjf hjs hjd]
    simp only [maskEntry]
    rw [hsel, if_pos heq]
    norm_num
  refine ⟨hent, ?_⟩
  intro hnot w hw
  rw [hent]
  intro hcontra
  exact hnot (hcontra ▸ hw)

/-- C4 amended witness: the sentinel placement instantiated on a one-feature
batch whose observed values [5] do not contain -1. -/
theorem masking_sentinel_witness :
    (([[(0 : ℚ)]] : Mat).getD 0 []).getD 0 1 = 0 ∧
    (matEntry (maskingCore [[1]] [[0]] [[1]]) 0 0 = -1 ∧
      ((-1 : ℚ) ∉ [(5 : ℚ)] →
        ∀ w ∈ [(5 : ℚ)], matEntry (maskingCore [[1]] [[0]] [[1]]) 0 0 ≠ w)) :=
  ⟨rfl,
   masking_sentinel [[1]] [[0]] [[1]] [5] 0 0 (by simp) (by simp) (by simp)
     (by simp) (by simp) (by simp) rfl rfl⟩

end Invase

namespace Invase

lemma mono_sub_const (m : ℚ) : Monotone (fun v : ℚ => v - m) :=
  fun _ _ h => sub_le_sub_right h m

lemma mono_div_pos (D : ℚ) (hD : 0 < D) : Monotone (fun v : ℚ => v / D) :=
  fun _ _ h => (div_le_div_right hD).mpr h

lemma EPS_pos : 0 < EPS := by norm_num [EPS]

/-- C1 counterexample: a concrete run of the risk-estimation importance target
builder (two instances, two features, one horizon; the external estimator
predicts 2 everywhere against labels 0, so every per-instance loss is
(2-0)^2 + |2-0| - 0 = 6) returns the importance value 6, which does not lie in
[0, 1] and has neither per-instance minimum 0 nor maximum 1 — the final
normalization is commented out in the risk-estimation source. Moreover, even
for the strategies that do normalize, the row [0, 1] is mapped to a
per-instance maximum of 100000000/100000001, not exactly 1. -/
theorem importance_normalization_counterexample :
    riskImportanceTest 2 1
      (fun m => riskBaselineMetric (fun _ => 0) (fun _ => [[2], [2]]) m [[0], [0]])
      (fun _ => [[5, 7], [5, 7]]) (fun _ _ => [[5, 7], [5, 7]])
      (fun _ _ => [[0, 1], [0, 1]]) [[0, 0], [0, 0]] =
      [[[6], [6]], [[6], [6]]] ∧
    ¬ ((6 : ℚ) ≤ 1) ∧
    rowMax (normalizeRowNormal [0, 1]) ≠ 1 ∧
    rowMax (normalizeRowOptimized [0, 1]) ≠ 1 := by
  refine ⟨?_, by norm_num, ?_, ?_⟩
  · have h1 : bitmask_intervals 2 1 2 = [[1, 0], [0, 1]] := by
      norm_num [bitmask_intervals, bitmasks, pyRange, List.range_succ,
        Function.comp, List.replicate]
    have h2 : bitmask_intervals 2 0 1 = [[0, 0]] := by
      norm_num [bitmask_intervals, bitmasks, pyRange, List.range_succ,
        Function.comp, List.replicate]
    simp only [riskImportanceTest]
    norm_num [h1, h2, riskBaselineMetric, riskBaselineUpdate,
      riskInteractionUpdate, maskingCore, zipWith3, maskEntry,
      fullChunks, fullChunksAux, permuteRows, EPS, List.replicate,
      List.enum, List.enumFrom, max_def, min_def]
  · have h : normalizeRowNormal [0, 1] = [0, 100000000 / 100000001] := by
      norm_num [normalizeRowNormal, rowMin, rowMax, EPS, max_def, min_def]
    rw [h]
    norm_num [rowMax, max_def]
  · have h : normalizeRowOptimized [0, 1] = [0, 100000000 / 100000001] := by
      norm_num [normalizeRowOptimized, rowMin, rowMax, EPS, max_def, min_def]
    rw [h]
    norm_num [rowMax, max_def]

/-- C1 amended: for the two classifier strategies the per-instance
normalization maps every row into [0, 1), with row minimum exactly 0 and row
maximum (max - min) / (max - min + EPS) (strictly below 1, approaching 1 for
rows whose range dominates EPS), and the optimized strategy's normalization
coincides with the normal one; the risk-estimation _importance_test applies no
final normalization (the normalization lines are commented out) and can return
values outside [0, 1], e.g. 6 on a concrete run. -/
theorem importance_normalization (row : List ℚ) (hrow : row ≠ []) :
    (∀ v ∈ normalizeRowNormal row, 0 ≤ v ∧ v < 1) ∧
    rowMin (normalizeRowNormal row) = 0 ∧
    rowMax (normalizeRowNormal row) =
      (rowMax row - rowMin row) / (rowMax row - rowMin row + EPS) ∧
    normalizeRowOptimized row = normalizeRowNormal row ∧
    riskImportanceTest 2 1
      (fun m => riskBaselineMetric (fun _ => 0) (fun _ => [[2], [2]]) m [[0], [0]])
      (fun _ => [[5, 7], [5, 7]]) (fun _ _ => [[5, 7], [5, 7]])
      (fun _ _ => [[0, 1], [0, 1]]) [[0, 0], [0, 0]] =
      [[[6], [6]], [[6], [6]]] := by
  have hsne : row.map (fun v => v - rowMin row) ≠ [] := by
    intro h
    exact hrow (List.map_eq_nil.mp h)
  have hsmin : rowMin (row.map (fun v => v - rowMin row)) = 0 := by
    rw [rowMin_map _ (mono_sub_const (rowMin row)) row hrow, sub_self]
  have hsmax : rowMax (row.map (fun v => v - rowMin row)) =
      rowMax row - rowMin row := by
    rw [rowMax_map _ (mono_sub_const (rowMin row)) row hrow]
  have hR : 0 ≤ rowMax (row.map (fun v => v - rowMin row)) := by
    rw [← hsmin]
    exact rowMin_le_rowMax _ hsne
  have hD : 0 < rowMax (row.map (fun v => v - rowMin row)) + EPS :=
    add_pos_of_nonneg_of_pos hR EPS_pos
  have hnorm : normalizeRowNormal row =
      (row.map (fun v => v - rowMin row)).map
        (fun v => v / (rowMax (row.map (fun v => v - rowMin row)) + EPS)) := by
    rfl
  refine ⟨?_, ?_, ?_, ?_, ?_⟩
  · intro v hv
    rw [hnorm] at hv
    obtain ⟨w, hw, rfl⟩ := List.mem_map.mp hv
    constructor
    · apply div_nonneg _ (le_of_lt hD)
      rw [← hsmin]
      exact rowMin_le_mem _ w hw
    · rw [div_lt_one hD]
      calc w ≤ rowMax (row.map (fun v => v - rowMin row)) :=
              le_rowMax_mem _ w hw
        _ < rowMax (row.map (fun v => v - rowMin row)) + EPS :=
              lt_add_of_pos_right _ EPS_pos
  · rw [hnorm, rowMin_map _ (mono_div_pos _ hD) _ hsne, hsmin, zero_div]
  · rw [hnorm, rowMax_map _ (mono_div_pos _ hD) _ hsne, hsmax]
  · have hfun : (fun v : ℚ =>
        v / (rowMax (row.map (fun v => v - rowMin row)) + EPS)) ∘
        (fun v : ℚ => v - rowMin row) =
        fun v : ℚ => (v - rowMin row) / (rowMax row - rowMin row + EPS) := by
      funext v
      simp [Function.comp, hsmax]
    rw [hnorm, List.map_map, hfun]
    rfl
  · have h1 : bitmask_intervals 2 1 2 = [[1, 0], [0, 1]] := by
      norm_num [bitmask_intervals, bitmasks, pyRange, List.range_succ,
        Function.comp, List.replicate]
    have h2 : bitmask_intervals 2 0 1 = [[0, 0]] := by
      norm_num [bitmask_intervals, bitmasks, pyRange, List.range_succ,
        Function.comp, List.replicate]
    simp only [riskImportanceTest]
    norm_num [h1, h2, riskBaselineMetric, riskBaselineUpdate,
      riskInteractionUpdate, maskingCore, zipWith3, maskEntry,
      fullChunks, fullChunksAux, permuteRows, EPS, List.replicate,
      List.enum, List.enumFrom, max_def, min_def]

/-- C1 amended witness: the normalization properties instantiated at the row
[0, 1]. -/
theorem importance_normalization_witness :
    ([0, 1] : List ℚ) ≠ [] ∧
    ((∀ v ∈ normalizeRowNormal [0, 1], 0 ≤ v ∧ v < 1) ∧
    rowMin (normalizeRowNormal [0, 1]) = 0 ∧
    rowMax (normalizeRowNormal [0, 1]) =
      (rowMax [0, 1] - rowMin [0, 1]) / (rowMax [0, 1] - rowMin [0, 1] + EPS) ∧
    normalizeRowOptimized [0, 1] = normalizeRowNormal [0, 1] ∧
    riskImportanceTest 2 1
      (fun m => riskBaselineMetric (fun _ => 0) (fun _ => [[2], [2]]) m [[0], [0]])
      (fun _ => [[5, 7], [5, 7]]) (fun _ _ => [[5, 7], [5, 7]])
      (fun _ _ => [[0, 1], [0, 1]]) [[0, 0], [0, 0]] =
      [[[6], [6]], [[6], [6]]]) :=
  ⟨by simp, importance_normalization [0, 1] (by simp)⟩

end Invase

namespace Invase

lemma HasShape.row_len (m : Mat) (B F : Nat) (h : HasShape m B F) (i : Nat)
    (hi : i < B) : (m.getD i []).length = F := by
  have hi2 : i < m.length := by rw [h.1]; exact hi
  have hmem : m.getD i [] ∈ m := by
    rw [List.getD_eq_getElem m [] hi2]
    exact List.getElem_mem hi2
  exact h.2 _ hmem

lemma matAdd_entry (a b : Mat) (i j : Nat) (hia : i < a.length)
    (hib : i < b.length) (hja : j < (a.getD i []).length)
    (hjb : j < (b.getD i []).length) :
    matEntry (matAdd a b) i j = matEntry a i j + matEntry b i j := by
  rw [matEntry, matAdd, zipWith_getD _ a b i [] [] [] hia hib,
    zipWith_getD _ (a.getD i []) (b.getD i []) j 0 0 0 hja hjb]
  rfl

lemma matAdd_shape (a b : Mat) (B F : Nat) (ha : HasShape a B F)
    (hb : HasShape b B F) : HasShape (matAdd a b) B F := by
  constructor
  · rw [matAdd, List.length_zipWith, ha.1, hb.1, min_self]
  · intro r hr
    rw [matAdd] at hr
    obtain ⟨k, hk, hkr⟩ := List.mem_iff_getElem.mp hr
    rw [List.length_zipWith] at hk
    have hka : k < a.length := lt_of_lt_of_le hk (min_le_left _ _)
    have hkb : k < b.length := lt_of_lt_of_le hk (min_le_right _ _)
    rw [List.getElem_zipWith] at hkr
    rw [← hkr, List.length_zipWith]
    rw [ha.2 _ (List.getElem_mem hka), hb.2 _ (List.getElem_mem hkb), min_self]

lemma foldl_matAdd_shape : ∀ (rest : List Mat) (acc : Mat) (B F : Nat),
    HasShape acc B F → (∀ m ∈ rest, HasShape m B F) →
    HasShape (rest.foldl matAdd acc) B F := by
  intro rest
  induction rest with
  | nil => intro acc B F hacc _; exact hacc
  | cons m rest ih =>
    intro acc B F hacc hrest
    rw [List.foldl_cons]
    exact ih (matAdd acc m) B F
      (matAdd_shape acc m B F hacc (hrest m (by simp)))
      (fun x hx => hrest x (by simp [hx]))

lemma foldl_matAdd_entry : ∀ (rest : List Mat) (acc : Mat) (B F : Nat),
    HasShape acc B F → (∀ m ∈ rest, HasShape m B F) →
    ∀ i j : Nat, i < B → j < F →
      matEntry (rest.foldl matAdd acc) i j =
        matEntry acc i j + (rest.map (fun m => matEntry m i j)).sum := by
  intro rest
  induction rest with
  | nil => intro acc B F _ _ i j _ _; simp
  | cons m rest ih =>
    intro acc B F hacc hrest i j hi hj
    have hm : HasShape m B F := hrest m (by simp)
    rw [List.foldl_cons,
      ih (matAdd acc m) B F (matAdd_shape acc m B F hacc hm)
        (fun x hx => hrest x (by simp [hx])) i j hi hj,
      matAdd_entry acc m i j (by rw [hacc.1]; exact hi) (by rw [hm.1]; exact hi)
        (by rw [HasShape.row_len acc B F hacc i hi]; exact hj)
        (by rw [HasShape.row_len m B F hm i hi]; exact hj)]
    rw [List.map_cons, List.sum_cons]
    ring

lemma map_div_entry (m : Mat) (c : ℚ) (i j : Nat) (hi : i < m.length)
    (hj : j < (m.getD i []).length) :
    matEntry (m.map (fun row => row.map (fun v => v / c))) i j =
      matEntry m i j / c := by
  rw [matEntry, map_getD _ m i [] [] hi,
    map_getD _ (m.getD i []) j 0 0 hj]
  rfl

lemma npMeanAxis0_entry (ms : List Mat) (B F : Nat) (hne : ms ≠ [])
    (hms : ∀ m ∈ ms, HasShape m B F) (i j : Nat) (hi : i < B) (hj : j < F) :
    matEntry (npMeanAxis0 ms) i j =
      (ms.map (fun m => matEntry m i j)).sum / (ms.length : ℚ) := by
  cases ms with
  | nil => exact absurd rfl hne
  | cons m rest =>
    have hm : HasShape m B F := hms m (by simp)
    have hrest : ∀ x ∈ rest, HasShape x B F :=
      fun x hx => hms x (by simp [hx])
    have hsh : HasShape (rest.foldl matAdd m) B F :=
      foldl_matAdd_shape rest m B F hm hrest
    simp only [npMeanAxis0]
    rw [map_div_entry _ _ i j (by rw [hsh.1]; exact hi)
      (by rw [HasShape.row_len _ B F hsh i hi]; exact hj)]
    rw [foldl_matAdd_entry rest m B F hm hrest i j hi hj]
    rw [List.map_cons, List.sum_cons, List.length_cons]

/-- C5: for every fixed non-empty list of trained fold models (each represented
by its explain map) whose outputs share one shape, the ensemble
invaseCV.explain equals, entry by entry, the arithmetic mean across folds of
the fold models' explain outputs. -/
theorem cv_explain_mean (folds : List (Mat → Mat)) (x : Mat) (B F : Nat)
    (hne : folds ≠ []) (hshape : ∀ fold ∈ folds, HasShape (fold x) B F)
    (i j : Nat) (hi : i < B) (hj : j < F) :
    matEntry (invaseCVExplain folds x) i j =
      (folds.map (fun fold => matEntry (fold x) i j)).sum /
        (folds.length : ℚ) := by
  rw [invaseCVExplain]
  rw [npMeanAxis0_entry (folds.map (fun fold => fold x)) B F
    (by simpa using hne)
    (by
      intro m hm
      obtain ⟨fold, hfold, rfl⟩ := List.mem_map.mp hm
      exact hshape fold hfold) i j hi hj]
  rw [List.map_map, List.length_map]
  rfl

/-- C5 witness: two constant fold models with outputs [[1, 2]] and [[3, 4]];
the ensemble entry at (0, 1) is (2 + 4) / 2. -/
theorem cv_explain_mean_witness :
    (([(fun _ => [[1, 2]]), (fun _ => [[3, 4]])] : List (Mat → Mat)) ≠ []) ∧
    matEntry
      (invaseCVExplain [(fun _ => [[1, 2]]), (fun _ => [[3, 4]])] []) 0 1 =
      (([(fun _ => [[1, 2]]), (fun _ => [[3, 4]])] : List (Mat → Mat)).map
        (fun fold => matEntry (fold []) 0 1)).sum /
      ((([(fun _ => [[1, 2]]), (fun _ => [[3, 4]])] :
          List (Mat → Mat)).length : Nat) : ℚ) :=
  ⟨by simp,
   cv_explain_mean [(fun _ => [[1, 2]]), (fun _ => [[3, 4]])] [] 1 2
     (by simp)
     (by
       intro fold hfold
       rcases List.mem_cons.mp hfold with rfl | hfold2
       · exact ⟨rfl, by intro r hr; rw [List.mem_singleton.mp hr]; rfl⟩
       · rcases List.mem_cons.mp hfold2 with rfl | hfold3
         · exact ⟨rfl, by intro r hr; rw [List.mem_singleton.mp hr]; rfl⟩
         · simp at hfold3)
     0 1 (by norm_num) (by norm_num)⟩

/-- Critic parameters with every Linear layer the 1-by-1 identity with zero
bias, used to exhibit dropout nondeterminism. -/
def criticParamsCx : CriticParams :=
  { W1 := [[1]], b1 := [0], W2 := [[1]], b2 := [0],
    W3 := [[1]], b3 := [0], W4 := [[1]], b4 := [0] }

/-- A dropout draw that keeps every unit in all three Dropout layers. -/
def dropKeep : DropoutDraw := { m1 := [1], m2 := [1], m3 := [1] }

/-- A dropout draw that drops every unit in all three Dropout layers. -/
def dropZero : DropoutDraw := { m1 := [0], m2 := [0], m3 := [0] }

/-- C2: invaseClassifier.explain is not deterministic for a frozen critic and
fixed input: the critic built by _build_critic contains Dropout(0.1) layers
and the source never switches the model out of training mode, so the forward
pass inside explain consumes fresh Bernoulli dropout draws; for any injective
sigmoid, the all-kept and the all-dropped draws give different outputs on the
same parameters and the same input. -/
theorem explain_nondeterministic (sigmoid : ℚ → ℚ)
    (hinj : Function.Injective sigmoid) :
    classifierExplain sigmoid criticParamsCx [dropKeep] [[1]] ≠
    classifierExplain sigmoid criticParamsCx [dropZero] [[1]] := by
  have h1 : classifierExplain sigmoid criticParamsCx [dropKeep] [[1]] =
      [[sigmoid (1000 / 729)]] := by
    norm_num [classifierExplain, criticForward, dropoutTrain, reluVec,
      linearLayer, dotQ, criticParamsCx, dropKeep, max_def]
  have h2 : classifierExplain sigmoid criticParamsCx [dropZero] [[1]] =
      [[sigmoid 0]] := by
    norm_num [classifierExplain, criticForward, dropoutTrain, reluVec,
      linearLayer, dotQ, criticParamsCx, dropZero, max_def]
  rw [h1, h2]
  intro h
  have h3 : sigmoid (1000 / 729) = sigmoid 0 := by
    simpa using h
  have h4 : (1000 / 729 : ℚ) = 0 := hinj h3
  norm_num at h4

/-- C2 witness: the nondeterminism instantiated at the identity map, which is
injective like the real sigmoid. -/
theorem explain_nondeterministic_witness :
    Function.Injective (fun q : ℚ => q) ∧
    classifierExplain (fun q : ℚ => q) criticParamsCx [dropKeep] [[1]] ≠
    classifierExplain (fun q : ℚ => q) criticParamsCx [dropZero] [[1]] :=
  ⟨fun a b h => h, explain_nondeterministic (fun q => q) (fun a b h => h)⟩

end Invase
